import Mathlib

/-!
Verification of the Hydrointel groundwater pipeline
(`backend/src/datasets/data_combiner.py`, `backend/src/ml/trainer.py`,
`backend/src/server.py`) against its specification.

The pandas data frames manipulated by `combine_and_clean_data` are
modelled as an explicit row count together with an ordered list of
labelled columns.  Duplicate column labels are representable: pandas
`rename` keeps both columns when the target label already exists, and
`df[cols]` then returns every column carrying a requested label — which
matters for sources carrying more than one of the three water-level
column names.  `pandas.read_csv` itself yields unique labels (duplicate
names in a CSV header are mangled on read), which enters the theorems as
a `Nodup` hypothesis on parsed sources.  A cell is either a rational
number, a string, or missing (`NaN`), modelled by `Val`.
-/

/-- One cell of a data frame: a number, a string, or a missing value (NaN). -/
inductive Val where
  | num (q : ℚ)
  | str (s : String)
  | na
deriving DecidableEq, Repr

/-- A pandas data frame: a row count and the ordered — possibly
duplicately labelled — columns. -/
structure DF where
  nrows : Nat
  cols : List (String × List Val)
deriving DecidableEq, Repr

/-- The column labels, in order (`df.columns`). -/
def DF.header (d : DF) : List String := d.cols.map Prod.fst

/-- The contents of the first column labelled `c`.  Labels are unique in
every frame the code reads or builds except for the duplicated
water-level labels, which the theorems treat through `cols` directly. -/
def DF.col (d : DF) (c : String) : List Val := (d.cols.lookup c).getD []

/-- Well-formedness: every column has exactly `nrows` cells. -/
def DF.Wf (d : DF) : Prop := ∀ p ∈ d.cols, p.2.length = d.nrows

/-- Column assignment `df[c] = v` (broadcasting a scalar `v` over all
rows): overwrites every column labelled `c` if the label exists,
otherwise appends one new column at the end. -/
def DF.setConst (d : DF) (c : String) (v : Val) : DF :=
  { nrows := d.nrows
    cols :=
      if c ∈ d.header then
        d.cols.map fun p =>
          if p.1 = c then (p.1, List.replicate d.nrows v) else p
      else d.cols ++ [(c, List.replicate d.nrows v)] }

/-- Column rename `df.rename(columns={old: new})`: relabels every column
labelled `old`; a column already labelled `new` is kept unchanged, so the
rename can produce duplicate labels. -/
def DF.renameCol (d : DF) (old new : String) : DF :=
  { nrows := d.nrows
    cols := d.cols.map fun p => if p.1 = old then (new, p.2) else p }

/-- Column selection / reordering `df[cs]`: for each requested label, all
columns carrying it, in frame order. -/
def DF.selectCols (d : DF) (cs : List String) : DF :=
  { nrows := d.nrows
    cols := (cs.map fun c => d.cols.filter fun p => p.1 == c).flatten }

/-- The canonical column order fixed by `combine_and_clean_data`
(`cols = ['Date', 'City', 'Water_Level_m', 'Lat', 'Long', 'Rainfall_mm',
'Temperature_C', 'pH', 'Dissolved_Oxygen_mg_L']`). -/
def canonicalCols : List String :=
  ["Date", "City", "Water_Level_m", "Lat", "Long", "Rainfall_mm",
   "Temperature_C", "pH", "Dissolved_Oxygen_mg_L"]

/-- The six feature columns used for prediction, in the order the server
and the trainer select them. -/
def requiredCols : List String :=
  ["Lat", "Long", "Rainfall_mm", "Temperature_C", "pH",
   "Dissolved_Oxygen_mg_L"]

/-- The missing-column fill loop of `combine_and_clean_data`:
`for col in cols: if col not in df.columns: df[col] = 0.0`. -/
def fillMissing (names : List String) (d : DF) : DF :=
  names.foldl
    (fun acc c => if c ∈ acc.header then acc else acc.setConst c (Val.num 0))
    d

/-- First standardization step of `combine_and_clean_data`:
`if 'WL' in df.columns: df.rename(columns={'WL': 'WaterLevel'})`. -/
def stdWL (d : DF) : DF :=
  if "WL" ∈ d.header then d.renameCol "WL" "WaterLevel" else d

/-- Second standardization step of `combine_and_clean_data`:
`if 'WaterLevel' in df.columns:
df.rename(columns={'WaterLevel': 'Water_Level_m'})`. -/
def stdWaterLevel (d : DF) : DF :=
  if "WaterLevel" ∈ d.header then d.renameCol "WaterLevel" "Water_Level_m"
  else d

/-- Per-source normalization performed inside the loop of
`combine_and_clean_data`: attach the `City` column, standardize the
water-level column name (`WL` → `WaterLevel` → `Water_Level_m`), fill
missing canonical columns with `0.0`, and select the canonical columns in
canonical order. -/
def normalizeTable (d : DF) (city : String) : DF :=
  (fillMissing canonicalCols
      (stdWaterLevel (stdWL (d.setConst "City" (Val.str city))))).selectCols
    canonicalCols

/-- A source carries at most one of the three accepted water-level column
names; when this fails, the rename chain duplicates the `Water_Level_m`
label. -/
def singleWaterName (d : DF) : Prop :=
  ¬("WL" ∈ d.header ∧ "WaterLevel" ∈ d.header)
  ∧ ¬("WL" ∈ d.header ∧ "Water_Level_m" ∈ d.header)
  ∧ ¬("WaterLevel" ∈ d.header ∧ "Water_Level_m" ∈ d.header)

/- Lookup and filter helpers for labelled column lists. -/

theorem lookup_eq_none_iff {β : Type} (fm : List (String × β)) (c : String) :
    fm.lookup c = none ↔ c ∉ fm.map Prod.fst := by
  induction fm with
  | nil => simp
  | cons p t ih =>
      rcases p with ⟨a, b⟩
      by_cases h : c = a
      · subst h
        simp [List.lookup_cons]
      · rw [List.lookup_cons]
        have hb : (c == a) = false := beq_eq_false_iff_ne.mpr h
        rw [hb]
        simpa [h] using ih

theorem lookup_append_of_none {β : Type} (l₁ l₂ : List (String × β))
    (c : String) (h : l₁.lookup c = none) :
    (l₁ ++ l₂).lookup c = l₂.lookup c := by
  induction l₁ with
  | nil => rfl
  | cons p t ih =>
      rcases p with ⟨a, b⟩
      rw [List.cons_append, List.lookup_cons]
      rw [List.lookup_cons] at h
      cases hb : (c == a) with
      | true =>
          rw [hb] at h
          simp at h
      | false =>
          rw [hb] at h
          exact ih h

theorem lookup_append_of_some {β : Type} (l₁ l₂ : List (String × β))
    (c : String) (v : β) (h : l₁.lookup c = some v) :
    (l₁ ++ l₂).lookup c = some v := by
  induction l₁ with
  | nil => cases h
  | cons p t ih =>
      rcases p with ⟨a, b⟩
      rw [List.cons_append, List.lookup_cons]
      rw [List.lookup_cons] at h
      cases hb : (c == a) with
      | true =>
          rw [hb] at h
          exact h
      | false =>
          rw [hb] at h
          exact ih h

theorem filter_label_eq_nil {β : Type} (l : List (String × β)) (c : String)
    (hc : c ∉ l.map Prod.fst) :
    l.filter (fun p => p.1 == c) = [] := by
  induction l with
  | nil => rfl
  | cons p t ih =>
      rcases p with ⟨a, b⟩
      simp only [List.map_cons, List.mem_cons] at hc
      push_neg at hc
      rw [List.filter_cons_of_neg (by simpa using Ne.symm hc.1)]
      exact ih (by simpa using hc.2)

theorem lookup_filter_label {β : Type} (l : List (String × β))
    (x c : String) :
    (l.filter fun p => p.1 == x).lookup c =
      if c = x then l.lookup c else none := by
  induction l with
  | nil => simp
  | cons p t ih =>
      rcases p with ⟨a, b⟩
      by_cases hax : a = x
      · subst hax
        rw [List.filter_cons_of_pos (by simp)]
        by_cases hca : c = a
        · subst hca
          simp [List.lookup_cons]
        · have hb : (c == a) = false := beq_eq_false_iff_ne.mpr hca
          rw [List.lookup_cons, List.lookup_cons, hb, ih]
      · rw [List.filter_cons_of_neg (by simpa using hax), ih]
        by_cases hcx : c = x
        · have hca : c ≠ a := fun h => hax (by rw [← h]; exact hcx)
          have hb : (c == a) = false := beq_eq_false_iff_ne.mpr hca
          rw [if_pos hcx, if_pos hcx, List.lookup_cons, hb]
        · rw [if_neg hcx, if_neg hcx]

/- Interface lemmas for the frame operations. -/

theorem setConst_nrows (d : DF) (c : String) (v : Val) :
    (d.setConst c v).nrows = d.nrows := rfl

theorem setConst_header (d : DF) (c : String) (v : Val) :
    (d.setConst c v).header =
      if c ∈ d.header then d.header else d.header ++ [c] := by
  unfold DF.setConst
  by_cases h : c ∈ d.header
  · rw [if_pos h, if_pos h]
    unfold DF.header
    rw [List.map_map]
    refine List.map_congr_left fun p hp => ?_
    by_cases hpc : p.1 = c <;> simp [hpc, Function.comp]
  · rw [if_neg h, if_neg h]
    unfold DF.header
    simp

theorem lookup_map_replace {β : Type} (l : List (String × β)) (c : String)
    (r : β) (hmem : c ∈ l.map Prod.fst) :
    (l.map fun p => if p.1 = c then (p.1, r) else p).lookup c = some r := by
  induction l with
  | nil => simp at hmem
  | cons p t ih =>
      rcases p with ⟨a, b⟩
      simp only [List.map_cons, List.mem_cons] at hmem
      by_cases hac : a = c
      · subst hac
        simp only [List.map_cons, if_true]
        simp [List.lookup_cons]
      · have hb : (c == a) = false := beq_eq_false_iff_ne.mpr fun h => hac h.symm
        simp only [List.map_cons]
        rw [if_neg hac, List.lookup_cons, hb]
        exact ih (hmem.resolve_left fun h => hac h.symm)

theorem lookup_map_replace_ne {β : Type} (l : List (String × β))
    (c : String) (r : β) (x : String) (hx : x ≠ c) :
    (l.map fun p => if p.1 = c then (p.1, r) else p).lookup x =
      l.lookup x := by
  induction l with
  | nil => rfl
  | cons p t ih =>
      rcases p with ⟨a, b⟩
      by_cases hac : a = c
      · subst hac
        have hb : (x == a) = false := beq_eq_false_iff_ne.mpr hx
        simp only [List.map_cons, if_true]
        rw [List.lookup_cons, List.lookup_cons, hb]
        exact ih
      · simp only [List.map_cons]
        rw [if_neg hac, List.lookup_cons, List.lookup_cons]
        cases x == a
        · exact ih
        · rfl

theorem setConst_col_self (d : DF) (c : String) (v : Val) :
    (d.setConst c v).col c = List.replicate d.nrows v := by
  unfold DF.setConst DF.col
  by_cases h : c ∈ d.header
  · simp only [if_pos h]
    rw [lookup_map_replace d.cols c _ h]
    rfl
  · simp only [if_neg h]
    rw [lookup_append_of_none _ _ _ ((lookup_eq_none_iff d.cols c).mpr h),
      List.lookup_cons]
    simp

theorem setConst_col_of_ne (d : DF) (c : String) (v : Val) (x : String)
    (hx : x ≠ c) : (d.setConst c v).col x = d.col x := by
  unfold DF.setConst DF.col
  by_cases h : c ∈ d.header
  · simp only [if_pos h]
    rw [lookup_map_replace_ne d.cols c _ x hx]
  · simp only [if_neg h]
    cases hl : d.cols.lookup x with
    | none =>
        rw [lookup_append_of_none _ _ _ hl, List.lookup_cons]
        have hb : (x == c) = false := beq_eq_false_iff_ne.mpr hx
        rw [hb]
        rfl
    | some w => rw [lookup_append_of_some _ _ _ _ hl]

theorem setConst_header_super (d : DF) (c : String) (v : Val) (x : String)
    (hx : x ∈ d.header) : x ∈ (d.setConst c v).header := by
  rw [setConst_header]
  split
  · exact hx
  · exact List.mem_append_left _ hx

theorem setConst_header_sub (d : DF) (c : String) (v : Val) (x : String)
    (hx : x ∈ (d.setConst c v).header) : x ∈ d.header ∨ x = c := by
  rw [setConst_header] at hx
  split at hx
  · exact Or.inl hx
  · rcases List.mem_append.mp hx with h | h
    · exact Or.inl h
    · exact Or.inr (List.mem_singleton.mp h)

theorem setConst_self_mem (d : DF) (c : String) (v : Val) :
    c ∈ (d.setConst c v).header := by
  rw [setConst_header]
  split
  · assumption
  · exact List.mem_append_right _ (List.mem_singleton.mpr rfl)

theorem setConst_nodup (d : DF) (c : String) (v : Val)
    (hn : d.header.Nodup) : (d.setConst c v).header.Nodup := by
  rw [setConst_header]
  split
  · exact hn
  · rename_i h
    rw [List.nodup_append]
    exact ⟨hn, List.nodup_singleton c,
      fun a ha hb => h ((List.mem_singleton.mp hb) ▸ ha)⟩

theorem setConst_wf (d : DF) (c : String) (v : Val) (hw : d.Wf) :
    (d.setConst c v).Wf := by
  intro p hp
  unfold DF.setConst at hp
  simp only at hp
  split at hp
  · obtain ⟨q, hq, hpq⟩ := List.mem_map.mp hp
    by_cases h : q.1 = c
    · rw [if_pos h] at hpq
      rw [← hpq]
      simp [DF.setConst]
    · rw [if_neg h] at hpq
      rw [← hpq]
      exact hw q hq
  · rcases List.mem_append.mp hp with h | h
    · exact hw p h
    · rw [List.mem_singleton.mp h]
      simp [DF.setConst]

theorem renameCol_nrows (d : DF) (old new : String) :
    (d.renameCol old new).nrows = d.nrows := rfl

theorem renameCol_header (d : DF) (old new : String) :
    (d.renameCol old new).header =
      d.header.map fun l => if l = old then new else l := by
  unfold DF.renameCol DF.header
  rw [List.map_map, List.map_map]
  refine List.map_congr_left fun p hp => ?_
  by_cases h : p.1 = old <;> simp [h, Function.comp]

theorem lookup_map_rename_new {β : Type} (l : List (String × β))
    (old new : String) (hnew : new ∉ l.map Prod.fst) :
    (l.map fun p => if p.1 = old then (new, p.2) else p).lookup new =
      l.lookup old := by
  induction l with
  | nil => rfl
  | cons p t ih =>
      rcases p with ⟨a, b⟩
      simp only [List.map_cons, List.mem_cons] at hnew
      push_neg at hnew
      by_cases hao : a = old
      · subst hao
        simp only [List.map_cons, if_true]
        rw [List.lookup_cons, List.lookup_cons]
        simp
      · have hna : (new == a) = false := beq_eq_false_iff_ne.mpr hnew.1
        have hoa : (old == a) = false :=
          beq_eq_false_iff_ne.mpr fun h => hao h.symm
        simp only [List.map_cons]
        rw [if_neg hao, List.lookup_cons, List.lookup_cons, hna, hoa]
        exact ih hnew.2

theorem lookup_map_rename_other {β : Type} (l : List (String × β))
    (old new x : String) (hxo : x ≠ old) (hxn : x ≠ new) :
    (l.map fun p => if p.1 = old then (new, p.2) else p).lookup x =
      l.lookup x := by
  induction l with
  | nil => rfl
  | cons p t ih =>
      rcases p with ⟨a, b⟩
      by_cases hao : a = old
      · subst hao
        have hxa : (x == a) = false :=
          beq_eq_false_iff_ne.mpr fun h => hxo h
        have hxn2 : (x == new) = false := beq_eq_false_iff_ne.mpr hxn
        simp only [List.map_cons, if_true]
        rw [List.lookup_cons, List.lookup_cons, hxa, hxn2]
        exact ih
      · simp only [List.map_cons]
        rw [if_neg hao, List.lookup_cons, List.lookup_cons]
        cases x == a
        · exact ih
        · rfl

theorem renameCol_col_new (d : DF) (old new : String)
    (hnew : new ∉ d.header) :
    (d.renameCol old new).col new = d.col old := by
  unfold DF.renameCol DF.col
  rw [lookup_map_rename_new d.cols old new hnew]

theorem renameCol_col_other (d : DF) (old new x : String) (hxo : x ≠ old)
    (hxn : x ≠ new) : (d.renameCol old new).col x = d.col x := by
  unfold DF.renameCol DF.col
  rw [lookup_map_rename_other d.cols old new x hxo hxn]

theorem renameCol_header_sub (d : DF) (old new x : String) (hx : x ≠ new)
    (h : x ∈ (d.renameCol old new).header) : x ∈ d.header := by
  rw [renameCol_header] at h
  obtain ⟨y, hy, hyx⟩ := List.mem_map.mp h
  by_cases hyo : y = old
  · subst hyo
    rw [if_pos rfl] at hyx
    exact absurd hyx.symm hx
  · rw [if_neg hyo] at hyx
    exact hyx ▸ hy

theorem renameCol_header_mem (d : DF) (old new x : String) (hx : x ≠ old)
    (h : x ∈ d.header) : x ∈ (d.renameCol old new).header := by
  rw [renameCol_header]
  exact List.mem_map.mpr ⟨x, h, by simp [hx]⟩

theorem renameCol_new_mem (d : DF) (old new : String) (h : old ∈ d.header) :
    new ∈ (d.renameCol old new).header := by
  rw [renameCol_header]
  exact List.mem_map.mpr ⟨old, h, by simp⟩

theorem renameCol_nodup (d : DF) (old new : String) (hn : d.header.Nodup)
    (hnew : new ∉ d.header) : (d.renameCol old new).header.Nodup := by
  rw [renameCol_header]
  refine List.Nodup.map_on ?_ hn
  intro a ha b hb hab
  by_cases h1 : a = old <;> by_cases h2 : b = old
  · rw [h1, h2]
  · rw [if_pos h1, if_neg h2] at hab
    exact absurd (hab ▸ hb) hnew
  · rw [if_neg h1, if_pos h2] at hab
    exact absurd (hab ▸ ha) hnew
  · rw [if_neg h1, if_neg h2] at hab
    exact hab

theorem renameCol_wf (d : DF) (old new : String) (hw : d.Wf) :
    (d.renameCol old new).Wf := by
  intro p hp
  obtain ⟨q, hq, hpq⟩ := List.mem_map.mp hp
  by_cases h : q.1 = old
  · rw [if_pos h] at hpq
    rw [← hpq]
    exact hw q hq
  · rw [if_neg h] at hpq
    rw [← hpq]
    exact hw q hq

theorem selectCols_nrows (d : DF) (cs : List String) :
    (d.selectCols cs).nrows = d.nrows := rfl

theorem select_lookup_of_none (d : DF) (cs : List String) (c : String)
    (hc : d.cols.lookup c = none) :
    ((cs.map fun x => d.cols.filter fun p => p.1 == x).flatten).lookup c =
      none := by
  induction cs with
  | nil => rfl
  | cons x rest ih =>
      simp only [List.map_cons, List.flatten_cons]
      have hseg : (d.cols.filter fun p => p.1 == x).lookup c = none := by
        rw [lookup_filter_label]
        split
        · exact hc
        · rfl
      rw [lookup_append_of_none _ _ _ hseg]
      exact ih

theorem select_lookup (d : DF) (cs : List String) (c : String)
    (hc : c ∈ cs) :
    ((cs.map fun x => d.cols.filter fun p => p.1 == x).flatten).lookup c =
      d.cols.lookup c := by
  induction cs with
  | nil => cases hc
  | cons x rest ih =>
      simp only [List.map_cons, List.flatten_cons]
      by_cases hcx : c = x
      · subst hcx
        cases hl : d.cols.lookup c with
        | none =>
            have hseg : (d.cols.filter fun p => p.1 == c).lookup c = none := by
              rw [lookup_filter_label, if_pos rfl]
              exact hl
            rw [lookup_append_of_none _ _ _ hseg]
            exact select_lookup_of_none d rest c hl
        | some v =>
            have hseg : (d.cols.filter fun p => p.1 == c).lookup c =
                some v := by
              rw [lookup_filter_label, if_pos rfl]
              exact hl
            exact lookup_append_of_some _ _ _ _ hseg
      · have hseg : (d.cols.filter fun p => p.1 == x).lookup c = none := by
          rw [lookup_filter_label, if_neg hcx]
        rw [lookup_append_of_none _ _ _ hseg]
        refine ih ?_
        rcases List.mem_cons.mp hc with h | h
        · exact absurd h hcx
        · exact h

theorem selectCols_col (d : DF) (cs : List String) (c : String)
    (hc : c ∈ cs) : (d.selectCols cs).col c = d.col c := by
  unfold DF.selectCols DF.col
  simp only
  rw [select_lookup d cs c hc]

theorem filter_label_of_nodup {β : Type} (l : List (String × β))
    (c : String) (hn : (l.map Prod.fst).Nodup) (hc : c ∈ l.map Prod.fst) :
    ∃ v, l.filter (fun p => p.1 == c) = [(c, v)] := by
  induction l with
  | nil => simp at hc
  | cons p t ih =>
      rcases p with ⟨a, b⟩
      simp only [List.map_cons, List.nodup_cons] at hn
      simp only [List.map_cons, List.mem_cons] at hc
      by_cases hca : a = c
      · subst hca
        refine ⟨b, ?_⟩
        rw [List.filter_cons_of_pos (by simp)]
        rw [filter_label_eq_nil t a hn.1]
      · rw [List.filter_cons_of_neg (by simpa using hca)]
        exact ih hn.2 (hc.resolve_left fun h => hca h.symm)

theorem selectCols_header_of_nodup (d : DF) (cs : List String)
    (hn : d.header.Nodup) (hcs : ∀ c ∈ cs, c ∈ d.header) :
    (d.selectCols cs).header = cs := by
  unfold DF.selectCols DF.header
  simp only
  induction cs with
  | nil => rfl
  | cons x rest ih =>
      simp only [List.map_cons, List.flatten_cons, List.map_append]
      obtain ⟨v, hv⟩ := filter_label_of_nodup d.cols x hn
        (hcs x (List.mem_cons_self x rest))
      rw [hv, ih fun c hc => hcs c (List.mem_cons_of_mem x hc)]
      rfl

theorem selectCols_wf (d : DF) (cs : List String) (hw : d.Wf) :
    (d.selectCols cs).Wf := by
  intro p hp
  unfold DF.selectCols at hp
  simp only at hp
  rw [List.mem_flatten] at hp
  obtain ⟨seg, hseg, hpseg⟩ := hp
  obtain ⟨x, hx, hxeq⟩ := List.mem_map.mp hseg
  rw [← hxeq] at hpseg
  exact hw p (List.mem_of_mem_filter hpseg)

/- Basic lemmas about the fill loop. -/

theorem fillMissing_nrows (names : List String) (d : DF) :
    (fillMissing names d).nrows = d.nrows := by
  induction names generalizing d with
  | nil => rfl
  | cons a t ih =>
      simp only [fillMissing, List.foldl_cons]
      by_cases h : a ∈ d.header
      · simpa [h, fillMissing] using ih d
      · rw [if_neg h]
        have := ih (d.setConst a (Val.num 0))
        simp only [fillMissing] at this
        rw [this, setConst_nrows]

theorem fillMissing_col_preserved (names : List String) (d : DF)
    (c : String) (hc : c ∈ d.header) :
    (fillMissing names d).col c = d.col c := by
  induction names generalizing d with
  | nil => rfl
  | cons a t ih =>
      simp only [fillMissing, List.foldl_cons]
      by_cases h : a ∈ d.header
      · simpa [h, fillMissing] using ih d hc
      · rw [if_neg h]
        have hac : c ≠ a := fun he => h (he ▸ hc)
        have := ih (d.setConst a (Val.num 0))
          (setConst_header_super d a (Val.num 0) c hc)
        simp only [fillMissing] at this
        rw [this, setConst_col_of_ne d a (Val.num 0) c hac]

theorem fillMissing_col_filled (names : List String) (d : DF)
    (c : String) (hcn : c ∈ names) (hc : c ∉ d.header) :
    (fillMissing names d).col c = List.replicate d.nrows (Val.num 0) := by
  induction names generalizing d with
  | nil => cases hcn
  | cons a t ih =>
      simp only [fillMissing, List.foldl_cons]
      by_cases hca : c = a
      · subst hca
        rw [if_neg hc]
        have := fillMissing_col_preserved t (d.setConst c (Val.num 0)) c
          (setConst_self_mem d c (Val.num 0))
        simp only [fillMissing] at this
        rw [this, setConst_col_self]
      · have hct : c ∈ t := by
          rcases List.mem_cons.mp hcn with h | h
          · exact absurd h hca
          · exact h
        by_cases h : a ∈ d.header
        · simpa [h, fillMissing] using ih d hct hc
        · rw [if_neg h]
          have hc2 : c ∉ (d.setConst a (Val.num 0)).header := fun hx =>
            (setConst_header_sub d a (Val.num 0) c hx).elim hc hca
          have := ih (d.setConst a (Val.num 0)) hct hc2
          simp only [fillMissing] at this
          rw [this, setConst_nrows]

theorem fillMissing_header_super (names : List String) (d : DF)
    (c : String) (hc : c ∈ d.header) :
    c ∈ (fillMissing names d).header := by
  induction names generalizing d with
  | nil => exact hc
  | cons a t ih =>
      simp only [fillMissing, List.foldl_cons]
      by_cases h : a ∈ d.header
      · simpa [h, fillMissing] using ih d hc
      · rw [if_neg h]
        have := ih (d.setConst a (Val.num 0))
          (setConst_header_super d a (Val.num 0) c hc)
        simpa [fillMissing] using this

theorem fillMissing_header_mem (names : List String) (d : DF)
    (c : String) (hcn : c ∈ names) :
    c ∈ (fillMissing names d).header := by
  induction names generalizing d with
  | nil => cases hcn
  | cons a t ih =>
      simp only [fillMissing, List.foldl_cons]
      by_cases hca : c = a
      · subst hca
        by_cases h : c ∈ d.header
        · simpa [h, fillMissing] using fillMissing_header_super t d c h
        · rw [if_neg h]
          have := fillMissing_header_super t (d.setConst c (Val.num 0)) c
            (setConst_self_mem d c (Val.num 0))
          simpa [fillMissing] using this
      · have hct : c ∈ t := by
          rcases List.mem_cons.mp hcn with h | h
          · exact absurd h hca
          · exact h
        by_cases h : a ∈ d.header
        · simpa [h, fillMissing] using ih d hct
        · rw [if_neg h]
          simpa [fillMissing] using ih (d.setConst a (Val.num 0)) hct

theorem fillMissing_nodup (names : List String) (d : DF)
    (hn : d.header.Nodup) : (fillMissing names d).header.Nodup := by
  induction names generalizing d with
  | nil => exact hn
  | cons a t ih =>
      simp only [fillMissing, List.foldl_cons]
      by_cases h : a ∈ d.header
      · simpa [h, fillMissing] using ih d hn
      · rw [if_neg h]
        simpa [fillMissing] using ih (d.setConst a (Val.num 0))
          (setConst_nodup d a (Val.num 0) hn)

theorem fillMissing_wf (names : List String) (d : DF) (hw : d.Wf) :
    (fillMissing names d).Wf := by
  induction names generalizing d with
  | nil => exact hw
  | cons a t ih =>
      simp only [fillMissing, List.foldl_cons]
      by_cases h : a ∈ d.header
      · simpa [h, fillMissing] using ih d hw
      · rw [if_neg h]
        simpa [fillMissing] using ih (d.setConst a (Val.num 0))
          (setConst_wf d a (Val.num 0) hw)

/- Header and column lemmas for the standardization stages. -/

theorem stdWL_nrows (d : DF) : (stdWL d).nrows = d.nrows := by
  simp only [stdWL]; split <;> rfl

theorem stdWaterLevel_nrows (d : DF) : (stdWaterLevel d).nrows = d.nrows := by
  simp only [stdWaterLevel]; split <;> rfl

theorem stdWL_col_of_ne (d : DF) (x : String) (hxo : x ≠ "WL")
    (hxn : x ≠ "WaterLevel") : (stdWL d).col x = d.col x := by
  simp only [stdWL]
  split
  · exact renameCol_col_other d "WL" "WaterLevel" x hxo hxn
  · rfl

theorem stdWaterLevel_col_of_ne (d : DF) (x : String)
    (hxo : x ≠ "WaterLevel") (hxn : x ≠ "Water_Level_m") :
    (stdWaterLevel d).col x = d.col x := by
  simp only [stdWaterLevel]
  split
  · exact renameCol_col_other d "WaterLevel" "Water_Level_m" x hxo hxn
  · rfl

theorem stdWL_header_not_mem (d : DF) (x : String) (hx : x ≠ "WaterLevel")
    (h : x ∉ d.header) : x ∉ (stdWL d).header := by
  simp only [stdWL]
  split
  · exact fun hc => h (renameCol_header_sub d "WL" "WaterLevel" x hx hc)
  · exact h

theorem stdWaterLevel_header_not_mem (d : DF) (x : String)
    (hx : x ≠ "Water_Level_m") (h : x ∉ d.header) :
    x ∉ (stdWaterLevel d).header := by
  simp only [stdWaterLevel]
  split
  · exact fun hc =>
      h (renameCol_header_sub d "WaterLevel" "Water_Level_m" x hx hc)
  · exact h

theorem stdWL_header_mem (d : DF) (x : String) (hx : x ≠ "WL")
    (h : x ∈ d.header) : x ∈ (stdWL d).header := by
  simp only [stdWL]
  split
  · exact renameCol_header_mem d "WL" "WaterLevel" x hx h
  · exact h

theorem stdWaterLevel_header_mem (d : DF) (x : String)
    (hx : x ≠ "WaterLevel") (h : x ∈ d.header) :
    x ∈ (stdWaterLevel d).header := by
  simp only [stdWaterLevel]
  split
  · exact renameCol_header_mem d "WaterLevel" "Water_Level_m" x hx h
  · exact h

theorem stdWL_wf (d : DF) (hw : d.Wf) : (stdWL d).Wf := by
  simp only [stdWL]
  split
  · exact renameCol_wf d "WL" "WaterLevel" hw
  · exact hw

theorem stdWaterLevel_wf (d : DF) (hw : d.Wf) : (stdWaterLevel d).Wf := by
  simp only [stdWaterLevel]
  split
  · exact renameCol_wf d "WaterLevel" "Water_Level_m" hw
  · exact hw

theorem normalizeTable_nrows (d : DF) (city : String) :
    (normalizeTable d city).nrows = d.nrows := by
  simp only [normalizeTable, selectCols_nrows]
  rw [fillMissing_nrows, stdWaterLevel_nrows, stdWL_nrows, setConst_nrows]

theorem normalizeTable_wf (d : DF) (city : String) (hw : d.Wf) :
    (normalizeTable d city).Wf :=
  selectCols_wf _ _ (fillMissing_wf _ _
    (stdWaterLevel_wf _ (stdWL_wf _ (setConst_wf d "City" (Val.str city) hw))))

/-- A canonical column other than `City`/`WaterLevel`/`Water_Level_m` that
the source lacks comes out of normalization filled with `0.0`. -/
theorem normalize_col_filled_aux (d : DF) (city c : String)
    (hcanon : c ∈ canonicalCols) (hne1 : c ≠ "City") (hne2 : c ≠ "WaterLevel")
    (hne3 : c ≠ "Water_Level_m") (hc : c ∉ d.header) :
    (normalizeTable d city).col c = List.replicate d.nrows (Val.num 0) := by
  have h1 : c ∉ (d.setConst "City" (Val.str city)).header := fun h =>
    (setConst_header_sub d "City" (Val.str city) c h).elim hc hne1
  have h2 := stdWL_header_not_mem _ c hne2 h1
  have h3 := stdWaterLevel_header_not_mem _ c hne3 h2
  simp only [normalizeTable]
  rw [selectCols_col _ canonicalCols c hcanon,
    fillMissing_col_filled canonicalCols _ c hcanon h3,
    stdWaterLevel_nrows, stdWL_nrows, setConst_nrows]

/-- A column other than `WL`/`City`/`WaterLevel`/`Water_Level_m` that the
source has keeps its contents through normalization. -/
theorem normalize_col_preserved_aux (d : DF) (city c : String)
    (hcanon : c ∈ canonicalCols) (hne0 : c ≠ "WL") (hne1 : c ≠ "City")
    (hne2 : c ≠ "WaterLevel") (hne3 : c ≠ "Water_Level_m")
    (hc : c ∈ d.header) :
    (normalizeTable d city).col c = d.col c := by
  have h1 : c ∈ (d.setConst "City" (Val.str city)).header :=
    setConst_header_super d "City" (Val.str city) c hc
  have h2 := stdWL_header_mem _ c hne0 h1
  have h3 := stdWaterLevel_header_mem _ c hne2 h2
  simp only [normalizeTable]
  rw [selectCols_col _ canonicalCols c hcanon,
    fillMissing_col_preserved canonicalCols _ c h3,
    stdWaterLevel_col_of_ne _ c hne2 hne3, stdWL_col_of_ne _ c hne0 hne2,
    setConst_col_of_ne d "City" (Val.str city) c hne1]

/-- The `City` column of a normalized table is the city label broadcast
over all rows. -/
theorem normalize_city_col (d : DF) (city : String) :
    (normalizeTable d city).col "City" =
      List.replicate d.nrows (Val.str city) := by
  have h1 : "City" ∈ (d.setConst "City" (Val.str city)).header :=
    setConst_self_mem d "City" (Val.str city)
  have h2 := stdWL_header_mem _ "City" (by decide) h1
  have h3 := stdWaterLevel_header_mem _ "City" (by decide) h2
  simp only [normalizeTable]
  rw [selectCols_col _ canonicalCols "City" (by decide),
    fillMissing_col_preserved canonicalCols _ "City" h3,
    stdWaterLevel_col_of_ne _ "City" (by decide) (by decide),
    stdWL_col_of_ne _ "City" (by decide) (by decide),
    setConst_col_self d "City" (Val.str city)]

/-- If the source has no water-level column under any of its three
accepted names, the normalized `Water_Level_m` column is filled with
`0.0`. -/
theorem normalize_wl_filled (d : DF) (city : String)
    (h0 : "WL" ∉ d.header) (h1 : "WaterLevel" ∉ d.header)
    (h2 : "Water_Level_m" ∉ d.header) :
    (normalizeTable d city).col "Water_Level_m" =
      List.replicate d.nrows (Val.num 0) := by
  have hwl : "WL" ∉ (d.setConst "City" (Val.str city)).header := fun h =>
    (setConst_header_sub d "City" (Val.str city) "WL" h).elim h0 (by decide)
  have hwlev : "WaterLevel" ∉ (d.setConst "City" (Val.str city)).header :=
    fun h =>
      (setConst_header_sub d "City" (Val.str city) "WaterLevel" h).elim h1
        (by decide)
  have hwm : "Water_Level_m" ∉ (d.setConst "City" (Val.str city)).header :=
    fun h =>
      (setConst_header_sub d "City" (Val.str city) "Water_Level_m" h).elim h2
        (by decide)
  have hs1 : stdWL (d.setConst "City" (Val.str city)) =
      d.setConst "City" (Val.str city) := by
    unfold stdWL; rw [if_neg hwl]
  have hs2 : stdWaterLevel (d.setConst "City" (Val.str city)) =
      d.setConst "City" (Val.str city) := by
    unfold stdWaterLevel; rw [if_neg hwlev]
  simp only [normalizeTable]
  rw [selectCols_col _ canonicalCols "Water_Level_m" (by decide), hs1, hs2,
    fillMissing_col_filled canonicalCols _ "Water_Level_m" (by decide) hwm,
    setConst_nrows]

/-- If the source has a `WL` column (and no `WaterLevel`/`Water_Level_m`
column), the normalized `Water_Level_m` column carries the source's `WL`
contents: the rename chain `WL` → `WaterLevel` → `Water_Level_m`. -/
theorem normalize_wl_renamed (d : DF) (city : String)
    (h0 : "WL" ∈ d.header) (h1 : "WaterLevel" ∉ d.header)
    (h2 : "Water_Level_m" ∉ d.header) :
    (normalizeTable d city).col "Water_Level_m" = d.col "WL" := by
  have hwl : "WL" ∈ (d.setConst "City" (Val.str city)).header :=
    setConst_header_super d "City" (Val.str city) "WL" h0
  have hwlev : "WaterLevel" ∉ (d.setConst "City" (Val.str city)).header :=
    fun h =>
      (setConst_header_sub d "City" (Val.str city) "WaterLevel" h).elim h1
        (by decide)
  have hwm : "Water_Level_m" ∉ (d.setConst "City" (Val.str city)).header :=
    fun h =>
      (setConst_header_sub d "City" (Val.str city) "Water_Level_m" h).elim h2
        (by decide)
  have hs1 : stdWL (d.setConst "City" (Val.str city)) =
      (d.setConst "City" (Val.str city)).renameCol "WL" "WaterLevel" := by
    unfold stdWL; rw [if_pos hwl]
  have hwlev2 : "WaterLevel" ∈ (stdWL (d.setConst "City" (Val.str city))).header := by
    rw [hs1]
    exact renameCol_new_mem _ "WL" "WaterLevel" hwl
  have hs2 : stdWaterLevel (stdWL (d.setConst "City" (Val.str city))) =
      (stdWL (d.setConst "City" (Val.str city))).renameCol "WaterLevel"
        "Water_Level_m" := by
    unfold stdWaterLevel; rw [if_pos hwlev2]
  have hwm2 : "Water_Level_m" ∉
      (stdWL (d.setConst "City" (Val.str city))).header := by
    rw [hs1]
    exact fun h =>
      hwm (renameCol_header_sub _ "WL" "WaterLevel" "Water_Level_m"
        (by decide) h)
  have hwm3 : "Water_Level_m" ∈
      (stdWaterLevel (stdWL (d.setConst "City" (Val.str city)))).header := by
    rw [hs2]
    exact renameCol_new_mem _ "WaterLevel" "Water_Level_m" hwlev2
  simp only [normalizeTable]
  rw [selectCols_col _ canonicalCols "Water_Level_m" (by decide),
    fillMissing_col_preserved canonicalCols _ "Water_Level_m" hwm3, hs2,
    renameCol_col_new _ "WaterLevel" "Water_Level_m" hwm2, hs1,
    renameCol_col_new _ "WL" "WaterLevel" hwlev,
    setConst_col_of_ne d "City" (Val.str city) "WL" (by decide)]

/-- For a parsed source — unique column labels, as `read_csv`
guarantees — carrying at most one of the three water-level names, the
normalized header is exactly the canonical column list. -/
theorem normalizeTable_header (d : DF) (city : String)
    (hn : d.header.Nodup) (hsw : singleWaterName d) :
    (normalizeTable d city).header = canonicalCols := by
  obtain ⟨hsw1, hsw2, hsw3⟩ := hsw
  have hn1 : (d.setConst "City" (Val.str city)).header.Nodup :=
    setConst_nodup d "City" (Val.str city) hn
  have hmem1 : ∀ x : String, x ≠ "City" →
      (x ∈ (d.setConst "City" (Val.str city)).header ↔ x ∈ d.header) := by
    intro x hx
    constructor
    · intro h
      exact (setConst_header_sub d "City" (Val.str city) x h).resolve_right hx
    · exact setConst_header_super d "City" (Val.str city) x
  have hn2 : (stdWL (d.setConst "City" (Val.str city))).header.Nodup := by
    unfold stdWL
    split
    · rename_i hwl
      refine renameCol_nodup _ "WL" "WaterLevel" hn1 ?_
      intro h
      exact hsw1 ⟨(hmem1 "WL" (by decide)).mp hwl,
        (hmem1 "WaterLevel" (by decide)).mp h⟩
    · exact hn1
  have hwm2 : "Water_Level_m" ∈
        (stdWL (d.setConst "City" (Val.str city))).header →
      "Water_Level_m" ∈ d.header := by
    unfold stdWL
    split
    · intro h
      exact (hmem1 "Water_Level_m" (by decide)).mp
        (renameCol_header_sub _ "WL" "WaterLevel" "Water_Level_m"
          (by decide) h)
    · intro h
      exact (hmem1 "Water_Level_m" (by decide)).mp h
  have hn3 :
      (stdWaterLevel (stdWL (d.setConst "City" (Val.str city)))).header.Nodup := by
    unfold stdWaterLevel
    split
    · rename_i hwlev
      refine renameCol_nodup _ "WaterLevel" "Water_Level_m" hn2 ?_
      intro h
      have hwm := hwm2 h
      revert hwlev
      unfold stdWL
      split
      · rename_i hwl
        intro hwlev
        exact hsw2 ⟨(hmem1 "WL" (by decide)).mp hwl, hwm⟩
      · intro hwlev
        exact hsw3 ⟨(hmem1 "WaterLevel" (by decide)).mp hwlev, hwm⟩
    · exact hn2
  have hn4 := fillMissing_nodup canonicalCols _ hn3
  have hcov : ∀ c ∈ canonicalCols,
      c ∈ (fillMissing canonicalCols
        (stdWaterLevel (stdWL (d.setConst "City" (Val.str city))))).header :=
    fun c hc => fillMissing_header_mem canonicalCols _ c hc
  exact selectCols_header_of_nodup _ canonicalCols hn4 hcov

/-- A parsed one-row source carrying both a `WL` and a `Water_Level_m`
column. -/
def dfDup : DF :=
  { nrows := 1
    cols := [("WL", [Val.num 5]), ("Water_Level_m", [Val.num 9])] }

/-- C1 counterexample: on a parsed source carrying both `WL` and
`Water_Level_m`, the rename chain turns `WL` into a second
`Water_Level_m` column and the selection keeps both, so the program
emits a ten-column frame with a duplicated `Water_Level_m` label — not
the fixed canonical schema the claim asserts for every source table that
parses. -/
theorem normalizer_schema_counterexample :
    (normalizeTable dfDup "Goa").header =
      ["Date", "City", "Water_Level_m", "Water_Level_m", "Lat", "Long",
       "Rainfall_mm", "Temperature_C", "pH", "Dissolved_Oxygen_mg_L"]
    ∧ (normalizeTable dfDup "Goa").header ≠ canonicalCols := by
  constructor <;> decide

/-- C1 (amended): for every source table that parses — hence, as
`read_csv` guarantees, with unique column labels — and that carries at
most one of the three water-level column names, the normalized output
has exactly the canonical columns in the canonical order (all other
source columns dropped); each canonical data column the source lacks is
filled with `0.0`; a source `WL` column ends up as the `Water_Level_m`
column; canonical columns the source already has are kept unchanged; and
the `City` column is the city label on every row. -/
theorem normalizer_canonical_schema (d : DF) (city : String)
    (hn : d.header.Nodup) (hsw : singleWaterName d) :
    (normalizeTable d city).header = canonicalCols
    ∧ (normalizeTable d city).col "City" =
        List.replicate d.nrows (Val.str city)
    ∧ (∀ c ∈ ["Date", "Lat", "Long", "Rainfall_mm", "Temperature_C", "pH",
          "Dissolved_Oxygen_mg_L"], c ∉ d.header →
        (normalizeTable d city).col c = List.replicate d.nrows (Val.num 0))
    ∧ (∀ c ∈ ["Date", "Lat", "Long", "Rainfall_mm", "Temperature_C", "pH",
          "Dissolved_Oxygen_mg_L"], c ∈ d.header →
        (normalizeTable d city).col c = d.col c)
    ∧ ("WL" ∉ d.header → "WaterLevel" ∉ d.header →
        "Water_Level_m" ∉ d.header →
        (normalizeTable d city).col "Water_Level_m" =
          List.replicate d.nrows (Val.num 0))
    ∧ ("WL" ∈ d.header → "WaterLevel" ∉ d.header →
        "Water_Level_m" ∉ d.header →
        (normalizeTable d city).col "Water_Level_m" = d.col "WL") := by
  refine ⟨normalizeTable_header d city hn hsw, normalize_city_col d city,
    ?_, ?_, normalize_wl_filled d city, normalize_wl_renamed d city⟩
  · intro c hc hcd
    fin_cases hc <;>
      exact normalize_col_filled_aux d city _ (by decide) (by decide)
        (by decide) (by decide) hcd
  · intro c hc hcd
    fin_cases hc <;>
      exact normalize_col_preserved_aux d city _ (by decide) (by decide)
        (by decide) (by decide) (by decide) hcd

/-- A concrete source table: a parsed two-row CSV with a `Date` column,
a `WL` water-level column, and an extra non-canonical column. -/
def dfEx : DF :=
  { nrows := 2
    cols := [("Date", [Val.str "2020-01-01", Val.str "2020-01-02"]),
             ("WL", [Val.num 5, Val.num 7]),
             ("Extra", [Val.num 9, Val.num 9])] }

/-- Witness for `normalizer_canonical_schema` on the concrete table
`dfEx`: canonical header, `Lat` filled with zeros, `Date` kept, and the
`WL` column renamed into `Water_Level_m`. -/
theorem normalizer_canonical_schema_witness :
    (normalizeTable dfEx "Mumbai").header = canonicalCols
    ∧ (normalizeTable dfEx "Mumbai").col "Lat" = [Val.num 0, Val.num 0]
    ∧ (normalizeTable dfEx "Mumbai").col "Date" =
        [Val.str "2020-01-01", Val.str "2020-01-02"]
    ∧ (normalizeTable dfEx "Mumbai").col "Water_Level_m" =
        [Val.num 5, Val.num 7] := by
  obtain ⟨ha, hb, hc, hd, he, hf⟩ := normalizer_canonical_schema dfEx
    "Mumbai" (by decide) ⟨by decide, by decide, by decide⟩
  refine ⟨ha, ?_, ?_, ?_⟩
  · have := hc "Lat" (by decide) (by decide)
    simpa using this
  · have := hd "Date" (by decide) (by decide)
    rw [this]; decide
  · have := hf (by decide) (by decide) (by decide)
    rw [this]; decide
/- The training scripts (`trainer.py` and the training half of
`data_combiner.py`): both read the combined dataset, run
`df.dropna(inplace=True)`, and then select the six feature columns and the
`Water_Level_m` target.  A row of the combined dataset is modelled with
its nine canonical cells. -/

/-- Whether a cell is missing (NaN). -/
def Val.isNA : Val → Bool
  | .na => true
  | _ => false

/-- One row of the combined dataset as the training scripts read it:
the nine canonical cells. -/
structure TRow where
  date : Val
  city : Val
  wl : Val
  lat : Val
  lon : Val
  rain : Val
  temp : Val
  ph : Val
  dox : Val
deriving DecidableEq, Repr

/-- `df.dropna(inplace=True)` in the training scripts: drop every row with
a missing value in any of the nine canonical columns. -/
def dropnaAll (rows : List TRow) : List TRow :=
  rows.filter fun r =>
    !(r.date.isNA || r.city.isNA || r.wl.isNA || r.lat.isNA || r.lon.isNA ||
      r.rain.isNA || r.temp.isNA || r.ph.isNA || r.dox.isNA)

/-- Whether a row has a value in all seven required fields (the six
features plus the `Water_Level_m` target). -/
def sevenRequiredPresent (r : TRow) : Bool :=
  !(r.wl.isNA || r.lat.isNA || r.lon.isNA || r.rain.isNA || r.temp.isNA ||
    r.ph.isNA || r.dox.isNA)

/-- Feature extraction
`df[['Lat', 'Long', 'Rainfall_mm', 'Temperature_C', 'pH',
'Dissolved_Oxygen_mg_L']]` of the training scripts. -/
def extractX (rows : List TRow) : List (List Val) :=
  rows.map fun r => [r.lat, r.lon, r.rain, r.temp, r.ph, r.dox]

/-- Target extraction `df['Water_Level_m']` of the training scripts. -/
def extractY (rows : List TRow) : List Val :=
  rows.map fun r => r.wl

/-- A combined-dataset row whose `Date` cell is missing but whose seven
required fields are all present. -/
def rowNaDate : TRow :=
  { date := Val.na, city := Val.str "Mumbai", wl := Val.num 3
    lat := Val.num 1, lon := Val.num 2, rain := Val.num 4
    temp := Val.num 25, ph := Val.num 7, dox := Val.num 6 }

/-- A combined-dataset row with every cell present. -/
def rowFull : TRow :=
  { date := Val.str "2020-01-01", city := Val.str "Pune", wl := Val.num 3
    lat := Val.num 1, lon := Val.num 2, rain := Val.num 4
    temp := Val.num 25, ph := Val.num 7, dox := Val.num 6 }

/-- C2 counterexample: the training scripts do not drop exactly the rows
missing one of the seven required fields.  `df.dropna()` drops on all nine
columns, so the row `rowNaDate`, which is missing only `Date`, is dropped
even though the claim says it is kept. -/
theorem trainer_dropna_counterexample :
    ¬ ∀ rows : List TRow, dropnaAll rows = rows.filter sevenRequiredPresent :=
  fun h => absurd (h [rowNaDate]) (by decide)

/-- C2 (amended): the training scripts drop exactly the rows with a
missing value in any of the nine canonical fields (so in particular every
surviving row has all seven required fields), the extracted `X` and `y`
have equal length, and the output ordering matches the input ordering. -/
theorem trainer_extraction_amended (rows : List TRow) :
    (extractX (dropnaAll rows)).length = (extractY (dropnaAll rows)).length
    ∧ (∀ r ∈ dropnaAll rows, sevenRequiredPresent r = true)
    ∧ (dropnaAll rows).Sublist rows := by
  refine ⟨by simp [extractX, extractY], ?_, List.filter_sublist rows⟩
  intro r hr
  rw [dropnaAll, List.mem_filter] at hr
  obtain ⟨-, h9⟩ := hr
  simp only [Bool.not_or, Bool.and_eq_true, Bool.not_eq_true'] at h9
  simp only [sevenRequiredPresent, Bool.not_or, Bool.and_eq_true,
    Bool.not_eq_true']
  obtain ⟨⟨⟨⟨⟨⟨⟨⟨-, -⟩, hw⟩, hl⟩, ho⟩, hra⟩, ht⟩, hp⟩, hx⟩ := h9
  exact ⟨⟨⟨⟨⟨⟨hw, hl⟩, ho⟩, hra⟩, ht⟩, hp⟩, hx⟩

/-- Witness for `trainer_extraction_amended` at the one-row dataset
`[rowFull]`, whose single row survives `dropna`. -/
theorem trainer_extraction_amended_witness :
    (extractX (dropnaAll [rowFull])).length =
      (extractY (dropnaAll [rowFull])).length
    ∧ sevenRequiredPresent rowFull = true
    ∧ (dropnaAll [rowFull]).Sublist [rowFull] :=
  ⟨(trainer_extraction_amended [rowFull]).1,
    (trainer_extraction_amended [rowFull]).2.1 rowFull (by decide),
    (trainer_extraction_amended [rowFull]).2.2⟩

/- The prediction service (`server.py`).  The dataset rows the server
reads from the combined CSV are modelled with named fields (`lon` stands
for the `Long` column, `dox` for `Dissolved_Oxygen_mg_L`); a numeric cell
may be NaN, hence `Option ℚ`.  The external collaborators — the date
parsing of `pd.to_datetime` and the date formatting of
`datetime.strftime` — are passed in as functions, `none` standing for a
coerced NaT respectively a `ValueError`. -/

/-- One row of the combined dataset as the server reads it, before date
parsing: the raw `Date` string, the `City`, and the seven numeric cells. -/
structure SRecord where
  rawDate : String
  city : String
  wl : Option ℚ
  lat : Option ℚ
  lon : Option ℚ
  rain : Option ℚ
  temp : Option ℚ
  ph : Option ℚ
  dox : Option ℚ
deriving DecidableEq, Repr

/-- A loaded record, after `pd.to_datetime(..., errors='coerce')` and
`dropna(subset=['Date'])`: its date is a successfully parsed day value. -/
structure LRecord where
  date : Nat
  city : String
  wl : Option ℚ
  lat : Option ℚ
  lon : Option ℚ
  rain : Option ℚ
  temp : Option ℚ
  ph : Option ℚ
  dox : Option ℚ
deriving DecidableEq, Repr

/-- A raw record together with its parsed date. -/
def toLoaded (d : Nat) (r : SRecord) : LRecord :=
  { date := d, city := r.city, wl := r.wl, lat := r.lat, lon := r.lon
    rain := r.rain, temp := r.temp, ph := r.ph, dox := r.dox }

/-- The startup dataset load of `server.py`:
`historical_data['Date'] = pd.to_datetime(historical_data['Date'],
errors='coerce')` followed by
`historical_data.dropna(subset=['Date'], inplace=True)` — rows whose date
fails to parse are coerced to NaT and then dropped. -/
def loadHistorical (pDate : String → Option Nat) (rows : List SRecord) :
    List LRecord :=
  rows.filterMap fun r => (pDate r.rawDate).map fun d => toLoaded d r

/-- The trained regressor, opaque to the server: it maps one row of six
feature cells to one scalar prediction. -/
def Model : Type := List (Option ℚ) → ℚ

/-- Process-wide server state after startup: the loaded model and the
loaded dataset, each independently `none` when its own load failed. -/
structure ServerState where
  model : Option Model
  data : Option (List LRecord)

/-- Startup of `server.py`: the model load and the dataset load are
independent; each resource ends up present iff its own load succeeded,
and the process starts in every combination. -/
def startupState (pDate : String → Option Nat) (m : Option Model)
    (raws : Option (List SRecord)) : ServerState :=
  { model := m, data := raws.map (loadHistorical pDate) }

/-- The serving-time missing-feature repair of `predict`: build the
one-row frame `pd.DataFrame([features])`, append a `0.0` column for each
required column the request lacks, and reindex to the required columns
(`features_df = features_df[required_cols]`).  The resulting single row,
in required-column order. -/
def serverFill (fm : List (String × ℚ)) : List (Option ℚ) :=
  requiredCols.map fun c => some ((fm.lookup c).getD 0)

/-- `POST /predict`: model-availability check, then request check, then
fill-and-predict.  The request body is `none` when the `features` key is
missing, otherwise the feature map of the request. -/
def predictEndpoint (st : ServerState) (body : Option (List (String × ℚ))) :
    Except (Nat × String) ℚ :=
  match st.model with
  | none => Except.error (500, "Model not loaded.")
  | some m =>
      match body with
      | none =>
          Except.error (400, "Invalid input data. \"features\" key is missing.")
      | some fm => Except.ok (m (serverFill fm))

/-- Column mean as pandas computes it (`DataFrame.mean()`): NaN cells are
skipped, and an all-NaN or empty column yields NaN. -/
def pandasMean (l : List (Option ℚ)) : Option ℚ :=
  let v := l.filterMap id
  if v.length = 0 then none else some (v.sum / (v.length : ℚ))

/-- The six per-feature means of a record list, in required-column order
(`city_data[[...]].mean()` in `predict_by_city`). -/
def cityMeans (rs : List LRecord) : List (Option ℚ) :=
  [pandasMean (rs.map fun r => r.lat), pandasMean (rs.map fun r => r.lon),
   pandasMean (rs.map fun r => r.rain), pandasMean (rs.map fun r => r.temp),
   pandasMean (rs.map fun r => r.ph), pandasMean (rs.map fun r => r.dox)]

/-- Case-insensitive city comparison:
`historical_data['City'].str.lower() == city.lower()`. -/
def cityMatch (city : String) (r : LRecord) : Bool :=
  r.city.toLower == city.toLower

/-- `POST /predict_by_city`: model check, dataset check, city-parameter
check (`none` = key absent; the empty string is also falsy in Python),
case-insensitive filter, 404 when no record matches, otherwise predict
from the per-feature means. -/
def predictByCityEndpoint (st : ServerState) (body : Option String) :
    Except (Nat × String) ℚ :=
  match st.model with
  | none => Except.error (500, "Model not loaded.")
  | some m =>
      match st.data with
      | none => Except.error (500, "Historical data not loaded on the server.")
      | some recs =>
          match body with
          | none => Except.error (400, "City parameter is required.")
          | some city =>
              if city = "" then
                Except.error (400, "City parameter is required.")
              else
                let cityData := recs.filter (cityMatch city)
                if cityData.isEmpty then
                  Except.error (404, "No data found for the specified city.")
                else Except.ok (m (cityMeans cityData))

/-- `GET /historical_data`: dataset check, city-parameter check,
case-insensitive filter, 404 when no record matches, otherwise the
`(Date, Water_Level_m)` pairs of the matching records in order.  Every
loaded record's date is a datetime, so serialization formats it with
`strftime`; `fDate` returns `none` exactly when `strftime` raises
`ValueError`, which the code turns into a null date. -/
def historicalDataEndpoint (fDate : Nat → Option String) (st : ServerState)
    (cityArg : Option String) :
    Except (Nat × String) (List (Option String × Option ℚ)) :=
  match st.data with
  | none => Except.error (500, "Historical data not loaded on the server.")
  | some recs =>
      match cityArg with
      | none => Except.error (400, "City parameter is required.")
      | some city =>
          if city = "" then Except.error (400, "City parameter is required.")
          else
            let cityData := recs.filter (cityMatch city)
            if cityData.isEmpty then
              Except.error (404, "No data found for the specified city.")
            else Except.ok (cityData.map fun r => (fDate r.date, r.wl))

/-- C4: for every request feature map supplying any subset of the six
required features (empty subset included), `predict` does not error: each
absent feature is defaulted to `0.0`, the present ones are passed through,
and exactly one scalar prediction is returned. -/
theorem predict_any_subset_ok (m : Model) (dt : Option (List LRecord))
    (fm : List (String × ℚ)) :
    predictEndpoint { model := some m, data := dt } (some fm) =
      Except.ok (m (serverFill fm))
    ∧ serverFill fm =
      [some ((fm.lookup "Lat").getD 0), some ((fm.lookup "Long").getD 0),
       some ((fm.lookup "Rainfall_mm").getD 0),
       some ((fm.lookup "Temperature_C").getD 0),
       some ((fm.lookup "pH").getD 0),
       some ((fm.lookup "Dissolved_Oxygen_mg_L").getD 0)] :=
  ⟨rfl, rfl⟩

/-- C10: the point prediction depends only on the values of the six
required feature names after `0.0`-defaulting — extra unrecognized keys
are dropped and the columns are fed to the model in one fixed order, so
two requests whose feature maps agree on the six names after defaulting
(e.g. `Lat` given explicitly as `0.0` versus `Lat` omitted) yield the
same prediction. -/
theorem predict_depends_only_on_required (m : Model)
    (dt : Option (List LRecord)) (fm1 fm2 : List (String × ℚ))
    (h : ∀ c ∈ requiredCols,
      (fm1.lookup c).getD 0 = (fm2.lookup c).getD 0) :
    predictEndpoint { model := some m, data := dt } (some fm1) =
      predictEndpoint { model := some m, data := dt } (some fm2) := by
  have hfill : serverFill fm1 = serverFill fm2 :=
    List.map_congr_left fun c hc => by rw [h c hc]
  simp only [predictEndpoint, serverFill] at *
  rw [hfill]

/-- A model used in witnesses: it echoes its first feature (the `Lat`
column). -/
def echoLat : Model := fun l => (l.headD none).getD 0

/-- Witness for `predict_depends_only_on_required`: a request giving
`Lat` explicitly as `0.0` next to an unrecognized key gives the same
prediction as the empty request, with which it agrees only after
defaulting. -/
theorem predict_depends_only_on_required_witness :
    predictEndpoint { model := some echoLat, data := none }
        (some [("Lat", 0), ("junk", 9)]) =
      predictEndpoint { model := some echoLat, data := none } (some []) :=
  predict_depends_only_on_required echoLat none
    [("Lat", 0), ("junk", 9)] [] (by decide)

/- C5: the train-time and serve-time missing-feature defaulting agree.
The Normalizer call site is the fill loop `fillMissing` of
`combine_and_clean_data` applied to the one-row frame carrying the
request's feature map; the serving call site is `serverFill` of
`predict`. -/

/-- The one-row frame `pd.DataFrame([features])` built from a request's
feature map: one column per key, holding that key's value. -/
def dfOfMap (fm : List (String × ℚ)) : DF :=
  { nrows := 1
    cols := fm.map fun p => (p.1, [Val.num p.2]) }

theorem dfOfMap_header (fm : List (String × ℚ)) :
    (dfOfMap fm).header = fm.map Prod.fst := by
  unfold dfOfMap DF.header
  rw [List.map_map]
  exact List.map_congr_left fun p _ => rfl

theorem dfOfMap_col (fm : List (String × ℚ)) (c : String) :
    (dfOfMap fm).col c = ((fm.lookup c).map fun v => [Val.num v]).getD [] := by
  unfold dfOfMap DF.col
  induction fm with
  | nil => rfl
  | cons p t ih =>
      rcases p with ⟨a, b⟩
      simp only [List.map_cons]
      rw [List.lookup_cons, List.lookup_cons]
      cases c == a
      · exact ih
      · rfl

/-- Reading one required cell out of the Normalizer's fill loop applied to
the one-row request frame gives exactly the serve-time default policy:
the request's value when the name is present, `0.0` otherwise. -/
theorem fill_readout (fm : List (String × ℚ)) (c : String)
    (hc : c ∈ canonicalCols) :
    ((fillMissing canonicalCols (dfOfMap fm)).col c).headD Val.na =
      Val.num ((fm.lookup c).getD 0) := by
  by_cases h : c ∈ (dfOfMap fm).header
  · rw [fillMissing_col_preserved _ _ c h, dfOfMap_col]
    obtain ⟨v, hv⟩ : ∃ v, fm.lookup c = some v := by
      cases hl : fm.lookup c with
      | none =>
          rw [dfOfMap_header] at h
          exact absurd ((lookup_eq_none_iff fm c).mp hl) (not_not.mpr h)
      | some v => exact ⟨v, rfl⟩
    rw [hv]
    rfl
  · rw [fillMissing_col_filled _ _ c hc h]
    have hl : fm.lookup c = none := by
      rw [dfOfMap_header] at h
      exact (lookup_eq_none_iff fm c).mpr h
    rw [hl]
    rfl

/-- C5: for every feature map, the training-time schema repair (the
Normalizer's fill loop on the one-row frame of the map) and the
serving-time request repair (`serverFill` in `predict`) produce the same
completed six-feature assignment: absent names mapped to `0.0`, present
names kept unchanged. -/
theorem default_policy_refinement (fm : List (String × ℚ)) :
    (requiredCols.map fun c =>
        ((fillMissing canonicalCols (dfOfMap fm)).col c).headD Val.na) =
      (serverFill fm).map fun x => Val.num (x.getD 0) := by
  have hsub : ∀ c ∈ requiredCols, c ∈ canonicalCols := by decide
  rw [serverFill, List.map_map]
  exact List.map_congr_left fun c hc => by
    rw [fill_readout fm c (hsub c hc)]; rfl

/-- The mean of a fully-present column is the arithmetic mean. -/
theorem pandasMean_of_present (qs : List ℚ) (h : qs ≠ []) :
    pandasMean (qs.map some) = some (qs.sum / (qs.length : ℚ)) := by
  have hfm : (qs.map some).filterMap id = qs := by
    induction qs with
    | nil => rfl
    | cons a t ih => simp [List.filterMap_cons, ih]
  have hlen : qs.length ≠ 0 := fun hh => h (List.length_eq_zero.mp hh)
  simp only [pandasMean, hfm]
  rw [if_neg hlen]

/-- The loaded dataset is exactly the raw records whose date parses, in
order, with their parsed dates attached: records with unparseable dates
are excluded entirely at load time. -/
theorem loadHistorical_eq (pDate : String → Option Nat)
    (raws : List SRecord) :
    loadHistorical pDate raws =
      (raws.filter fun r => (pDate r.rawDate).isSome).map fun r =>
        toLoaded ((pDate r.rawDate).getD 0) r := by
  induction raws with
  | nil => rfl
  | cons r t ih =>
      simp only [loadHistorical, List.filterMap_cons] at ih ⊢
      cases hp : pDate r.rawDate with
      | none => simp [hp, List.filter_cons, ih]
      | some d => simp [hp, List.filter_cons, ih]

/-- The external date parser used in witnesses: only `2020-01-01`
parses. -/
def parseEx : String → Option Nat := fun s =>
  if s = "2020-01-01" then some 0 else none

/-- The external date formatter used in witnesses: formatting always
succeeds. -/
def fmtEx : Nat → Option String := fun _ => some "2020-01-01"

/-- A Pune record whose date parses under `parseEx`. -/
def rawPuneGood : SRecord :=
  { rawDate := "2020-01-01", city := "Pune", wl := some 3, lat := some 1
    lon := some 20, rain := some 5, temp := some 25, ph := some 7
    dox := some 6 }

/-- A Pune record whose date fails to parse under `parseEx`. -/
def rawPuneBad : SRecord :=
  { rawDate := "no-date", city := "Pune", wl := some 4, lat := some 3
    lon := some 22, rain := some 7, temp := some 26, ph := some 8
    dox := some 5 }

/-- C3 counterexample: city-averaged prediction does not average over all
Canonical Records of the city.  With the echo model, the dataset of the
two Pune records (`Lat` 1 with a parsing date, `Lat` 3 with an
unparseable date) yields the prediction 1 — the mean over the records
whose date parsed — while the mean of `Lat` over all records of the city,
which the claim prescribes, is 2. -/
theorem city_average_counterexample :
    predictByCityEndpoint
        { model := some echoLat
          data := some (loadHistorical parseEx [rawPuneGood, rawPuneBad]) }
        (some "Pune") = Except.ok 1
    ∧ pandasMean ([rawPuneGood, rawPuneBad].map fun r => r.lat) = some 2 := by
  have hload : loadHistorical parseEx [rawPuneGood, rawPuneBad] =
      [toLoaded 0 rawPuneGood] := by decide
  constructor
  · rw [hload]
    simp [predictByCityEndpoint, cityMatch, toLoaded, rawPuneGood, echoLat,
      cityMeans, pandasMean, List.filter_cons]
  · simp [pandasMean, rawPuneGood, rawPuneBad]
    norm_num

/-- C3 (amended): city-averaged prediction, over the loaded dataset (from
which records with unparseable dates were dropped at startup): if at
least one loaded record matches the city case-insensitively, the result
is exactly one scalar — the model applied to the per-feature means of the
matching loaded records — and those means are arithmetic means of the
present cells (for fully-present columns, `sum / length`); if no loaded
record matches, the result is the 404 city-not-found error. -/
theorem city_average_amended (m : Model) (pDate : String → Option Nat)
    (raws : List SRecord) (city : String) (hcity : city ≠ "") :
    ((loadHistorical pDate raws).filter (cityMatch city) = [] →
      predictByCityEndpoint
          { model := some m, data := some (loadHistorical pDate raws) }
          (some city) =
        Except.error (404, "No data found for the specified city."))
    ∧ ((loadHistorical pDate raws).filter (cityMatch city) ≠ [] →
      predictByCityEndpoint
          { model := some m, data := some (loadHistorical pDate raws) }
          (some city) =
        Except.ok (m (cityMeans
          ((loadHistorical pDate raws).filter (cityMatch city)))))
    ∧ (∀ qs : List ℚ, qs ≠ [] →
        pandasMean (qs.map some) = some (qs.sum / (qs.length : ℚ))) := by
  refine ⟨?_, ?_, fun qs h => pandasMean_of_present qs h⟩
  · intro he
    simp [predictByCityEndpoint, hcity, he]
  · intro hne
    simp [predictByCityEndpoint, hcity, List.isEmpty_iff, hne]

/-- Witness for `city_average_amended` on the two-record Pune dataset:
the matching loaded records are nonempty, so the endpoint returns the
model applied to their feature means. -/
theorem city_average_amended_witness :
    predictByCityEndpoint
        { model := some echoLat
          data := some (loadHistorical parseEx [rawPuneGood, rawPuneBad]) }
        (some "Pune") =
      Except.ok (echoLat (cityMeans
        ((loadHistorical parseEx [rawPuneGood, rawPuneBad]).filter
          (cityMatch "Pune")))) :=
  (city_average_amended echoLat parseEx [rawPuneGood, rawPuneBad] "Pune"
      (by decide)).2.1
    (by
      have hload : loadHistorical parseEx [rawPuneGood, rawPuneBad] =
          [toLoaded 0 rawPuneGood] := by decide
      rw [hload]
      simp [cityMatch, toLoaded, rawPuneGood, List.filter_cons])

/-- C9: historical lookup for a nonempty city name over the loaded
dataset: a 404 not-found error exactly when no loaded record matches
case-insensitively (never an empty 200 list); otherwise the
`(Date, Water_Level_m)` pairs of the matching loaded records in order,
where a date becomes null only through a formatting failure — and, by the
load equation, every record whose date failed to parse was excluded from
the loaded dataset entirely. -/
theorem historical_lookup_dates (fDate : Nat → Option String)
    (mo : Option Model) (pDate : String → Option Nat) (raws : List SRecord)
    (city : String) (hcity : city ≠ "") :
    ((loadHistorical pDate raws).filter (cityMatch city) = [] →
      historicalDataEndpoint fDate
          { model := mo, data := some (loadHistorical pDate raws) }
          (some city) =
        Except.error (404, "No data found for the specified city."))
    ∧ ((loadHistorical pDate raws).filter (cityMatch city) ≠ [] →
      historicalDataEndpoint fDate
          { model := mo, data := some (loadHistorical pDate raws) }
          (some city) =
        Except.ok (((loadHistorical pDate raws).filter (cityMatch city)).map
          fun r => (fDate r.date, r.wl)))
    ∧ (∀ l, historicalDataEndpoint fDate
          { model := mo, data := some (loadHistorical pDate raws) }
          (some city) = Except.ok l → l ≠ [])
    ∧ loadHistorical pDate raws =
        (raws.filter fun r => (pDate r.rawDate).isSome).map fun r =>
          toLoaded ((pDate r.rawDate).getD 0) r := by
  have h404 : (loadHistorical pDate raws).filter (cityMatch city) = [] →
      historicalDataEndpoint fDate
          { model := mo, data := some (loadHistorical pDate raws) }
          (some city) =
        Except.error (404, "No data found for the specified city.") := by
    intro he
    simp [historicalDataEndpoint, hcity, he]
  have hok : (loadHistorical pDate raws).filter (cityMatch city) ≠ [] →
      historicalDataEndpoint fDate
          { model := mo, data := some (loadHistorical pDate raws) }
          (some city) =
        Except.ok (((loadHistorical pDate raws).filter (cityMatch city)).map
          fun r => (fDate r.date, r.wl)) := by
    intro hne
    simp [historicalDataEndpoint, hcity, List.isEmpty_iff, hne]
  refine ⟨h404, hok, ?_, loadHistorical_eq pDate raws⟩
  intro l hl
  by_cases he : (loadHistorical pDate raws).filter (cityMatch city) = []
  · rw [h404 he] at hl
    cases hl
  · rw [hok he] at hl
    simp only [Except.ok.injEq] at hl
    intro hnil
    rw [← hl, List.map_eq_nil_iff] at hnil
    exact he hnil

/-- Witness for `historical_lookup_dates`: on the two-record Pune dataset
the lookup yields exactly the one pair of the record whose date parsed;
the bad-date record contributes nothing. -/
theorem historical_lookup_dates_witness :
    historicalDataEndpoint fmtEx
        { model := none
          data := some (loadHistorical parseEx [rawPuneGood, rawPuneBad]) }
        (some "Pune") =
      Except.ok (((loadHistorical parseEx [rawPuneGood, rawPuneBad]).filter
          (cityMatch "Pune")).map fun r => (fmtEx r.date, r.wl)) :=
  (historical_lookup_dates fmtEx none parseEx [rawPuneGood, rawPuneBad]
      "Pune" (by decide)).2.1
    (by
      have hload : loadHistorical parseEx [rawPuneGood, rawPuneBad] =
          [toLoaded 0 rawPuneGood] := by decide
      rw [hload]
      simp [cityMatch, toLoaded, rawPuneGood, List.filter_cons])

/-- C8: startup resource loading is independent (each resource is present
iff its own load succeeded, and a server state exists for every
combination), and each serving operation fails only when a resource it
actually needs is missing: with the model absent but the dataset loaded,
historical lookup still succeeds (here: for a matching city) while point
prediction fails with the 500 model-unavailable error; with the dataset
absent but the model loaded, point prediction still succeeds while
historical lookup fails with the 500 data-unavailable error. -/
theorem startup_partial_service (m : Model) (pDate : String → Option Nat)
    (fDate : Nat → Option String) (raws : List SRecord)
    (fm : List (String × ℚ)) (city : String) (hcity : city ≠ "")
    (hmatch : (loadHistorical pDate raws).filter (cityMatch city) ≠ []) :
    (∀ (mo : Option Model) (rawso : Option (List SRecord)),
      (startupState pDate mo rawso).model = mo
      ∧ (startupState pDate mo rawso).data =
          rawso.map (loadHistorical pDate))
    ∧ predictEndpoint
        { model := none, data := some (loadHistorical pDate raws) }
        (some fm) =
      Except.error (500, "Model not loaded.")
    ∧ historicalDataEndpoint fDate
        { model := none, data := some (loadHistorical pDate raws) }
        (some city) =
      Except.ok (((loadHistorical pDate raws).filter (cityMatch city)).map
        fun r => (fDate r.date, r.wl))
    ∧ predictEndpoint { model := some m, data := none } (some fm) =
      Except.ok (m (serverFill fm))
    ∧ historicalDataEndpoint fDate { model := some m, data := none }
        (some city) =
      Except.error (500, "Historical data not loaded on the server.") := by
  refine ⟨fun mo rawso => ⟨rfl, rfl⟩, rfl, ?_, rfl, rfl⟩
  simp [historicalDataEndpoint, hcity, List.isEmpty_iff, hmatch]

/-- Witness for `startup_partial_service` on the Pune dataset and an
empty feature request. -/
theorem startup_partial_service_witness :
    predictEndpoint
        { model := none
          data := some (loadHistorical parseEx [rawPuneGood, rawPuneBad]) }
        (some []) =
      Except.error (500, "Model not loaded.")
    ∧ historicalDataEndpoint fmtEx
        { model := none
          data := some (loadHistorical parseEx [rawPuneGood, rawPuneBad]) }
        (some "Pune") =
      Except.ok (((loadHistorical parseEx [rawPuneGood, rawPuneBad]).filter
          (cityMatch "Pune")).map fun r => (fmtEx r.date, r.wl))
    ∧ predictEndpoint { model := some echoLat, data := none } (some []) =
      Except.ok (echoLat (serverFill []))
    ∧ historicalDataEndpoint fmtEx { model := some echoLat, data := none }
        (some "Pune") =
      Except.error (500, "Historical data not loaded on the server.") := by
  have T := startup_partial_service echoLat parseEx fmtEx
    [rawPuneGood, rawPuneBad] [] "Pune" (by decide)
    (by
      have hload : loadHistorical parseEx [rawPuneGood, rawPuneBad] =
          [toLoaded 0 rawPuneGood] := by decide
      rw [hload]
      simp [cityMatch, toLoaded, rawPuneGood, List.filter_cons])
  exact ⟨T.2.1, T.2.2.1, T.2.2.2.1, T.2.2.2.2⟩

/- The dataset combiner (`combine_and_clean_data` in `data_combiner.py`):
source discovery by glob, per-source parse with failures skipped,
normalization, concatenation, and persistence of the combined frame
(`none` means no output file is written). -/

/-- A discovered source file: its base name and the outcome of
`pd.read_csv` (`none` when parsing raised and the file is skipped). -/
structure SourceFile where
  name : String
  parsed : Option DF

/-- The city label derived from a source file name: the token before the
first underscore (`os.path.basename(f).split('_')[0]`). -/
def cityOfFileName (name : String) : String :=
  (name.splitOn "_").headD name

/-- Pairwise row concatenation of two frames with equal headers: the
columns are stacked positionally, which is how `pd.concat` treats frames
whose column indexes are identical. -/
def DF.append2 (a b : DF) : DF :=
  { nrows := a.nrows + b.nrows
    cols := List.zipWith (fun p q => (p.1, p.2 ++ q.2)) a.cols b.cols }

/-- The empty frame with the canonical header. -/
def emptyCanonical : DF :=
  { nrows := 0, cols := canonicalCols.map fun c => (c, []) }

/-- `pd.concat(combined_data, ignore_index=True)` over frames with equal
headers: the single frame itself, or pairwise stacking. -/
def concatFrames : List DF → DF
  | [] => emptyCanonical
  | d :: rest =>
    match rest with
    | [] => d
    | _ :: _ => d.append2 (concatFrames rest)

/-- The normalized frames of the parsed sources, in discovery order;
parse failures contribute nothing (the per-file `try`/`except` skips
them). -/
def normalizedFrames (sources : List SourceFile) : List DF :=
  sources.filterMap fun s =>
    s.parsed.map fun d => normalizeTable d (cityOfFileName s.name)

/-- Whether all frames have the same column index.  When they do,
`pd.concat` stacks them positionally; when they differ, it must reindex
over the union of the column indexes, and — since in this pipeline
headers differ only when a duplicated water-level label arose — that
reindexing over a non-unique index raises, uncaught, and kills the run
before any output is written. -/
def headersAligned (l : List DF) : Bool :=
  l.all fun f => f.header == (l.headD emptyCanonical).header

/-- `combine_and_clean_data`: if no source is discovered, fail; parse
each source, skipping failures; normalize each parsed frame with its
file-derived city label; if nothing parsed, fail; concatenate and
persist (`some` = an output file is written).  The concatenation itself
fails — no output — when the frame headers are not all equal, modelling
the uncaught `pd.concat` raise. -/
def combineAndClean (sources : List SourceFile) : Option DF :=
  if sources.isEmpty then none
  else if (normalizedFrames sources).isEmpty then none
  else if headersAligned (normalizedFrames sources) then
    some (concatFrames (normalizedFrames sources))
  else none

/-- Whether `s` begins with `pat`. -/
def beginsL : List Char → List Char → Bool
  | [], _ => true
  | _ :: _, [] => false
  | a :: as, b :: bs => a == b && beginsL as bs

/-- Whether `pat` occurs as a contiguous segment of the second list. -/
def containsL (pat : List Char) : List Char → Bool
  | [] => pat.isEmpty
  | b :: bs => beginsL pat (b :: bs) || containsL pat bs

/-- Whether `s` ends with `sfx`. -/
def endsL (sfx s : List Char) : Bool :=
  beginsL sfx.reverse s.reverse

/-- The glob pattern `*_detailed_groundwater_data*.csv` used for source
discovery.  A name matches iff it can be split as
`a ++ marker ++ b ++ ".csv"`; since the marker contains no dot, its last
character cannot fall inside a terminal `.csv`, so this is equivalent
to: the name contains the marker and ends in `.csv`. -/
def matchesSourceGlob (name : String) : Bool :=
  containsL "_detailed_groundwater_data".toList name.toList
    && endsL ".csv".toList name.toList

/-- The fixed base name of the combiner's output file
(`combined_city_data.csv`). -/
def combinedOutputName : String := "combined_city_data.csv"

/-- The rows of a frame, in order; each row lists the cells of all
columns in frame order (duplicated labels contribute their own cells). -/
def rowsOf (d : DF) : List (List Val) :=
  (List.range d.nrows).map fun i => d.cols.map fun p => p.2.getD i Val.na

/- Rows of concatenated frames. -/

theorem zipWith_combine_header (ac bc : List (String × List Val))
    (hlen : ac.length = bc.length) :
    (List.zipWith (fun p q => (p.1, p.2 ++ q.2)) ac bc).map Prod.fst =
      ac.map Prod.fst := by
  induction ac generalizing bc with
  | nil => simp
  | cons p t ih =>
      cases bc with
      | nil => simp at hlen
      | cons q tb =>
          simp only [List.zipWith_cons_cons, List.map_cons]
          rw [ih tb (by simpa using hlen)]

theorem zipWith_combine_row_left (ac bc : List (String × List Val))
    (n i : Nat) (hlen : ac.length = bc.length)
    (hwa : ∀ p ∈ ac, p.2.length = n) (hi : i < n) :
    (List.zipWith (fun p q => (p.1, p.2 ++ q.2)) ac bc).map
        (fun p => p.2.getD i Val.na) =
      ac.map fun p => p.2.getD i Val.na := by
  induction ac generalizing bc with
  | nil => simp
  | cons p t ih =>
      cases bc with
      | nil => simp at hlen
      | cons q tb =>
          simp only [List.zipWith_cons_cons, List.map_cons]
          congr 1
          · exact List.getD_append _ _ _ _
              (by rw [hwa p (List.mem_cons_self _ _)]; exact hi)
          · exact ih tb (by simpa using hlen)
              fun x hx => hwa x (List.mem_cons_of_mem _ hx)

theorem zipWith_combine_row_right (ac bc : List (String × List Val))
    (n i : Nat) (hlen : ac.length = bc.length)
    (hwa : ∀ p ∈ ac, p.2.length = n) (hi : n ≤ i) :
    (List.zipWith (fun p q => (p.1, p.2 ++ q.2)) ac bc).map
        (fun p => p.2.getD i Val.na) =
      bc.map fun q => q.2.getD (i - n) Val.na := by
  induction ac generalizing bc with
  | nil =>
      cases bc with
      | nil => simp
      | cons q tb => simp at hlen
  | cons p t ih =>
      cases bc with
      | nil => simp at hlen
      | cons q tb =>
          simp only [List.zipWith_cons_cons, List.map_cons]
          congr 1
          · rw [List.getD_append_right _ _ _ _
              (by rw [hwa p (List.mem_cons_self _ _)]; exact hi)]
            rw [hwa p (List.mem_cons_self _ _)]
          · exact ih tb (by simpa using hlen)
              fun x hx => hwa x (List.mem_cons_of_mem _ hx)

theorem append2_header (a b : DF) (hlen : a.cols.length = b.cols.length) :
    (a.append2 b).header = a.header :=
  zipWith_combine_header a.cols b.cols hlen

theorem append2_wf (a b : DF) (hlen : a.cols.length = b.cols.length)
    (ha : a.Wf) (hb : b.Wf) : (a.append2 b).Wf := by
  have aux : ∀ ac bc : List (String × List Val),
      ac.length = bc.length →
      (∀ p ∈ ac, p.2.length = a.nrows) →
      (∀ q ∈ bc, q.2.length = b.nrows) →
      ∀ p ∈ List.zipWith (fun p q => (p.1, p.2 ++ q.2)) ac bc,
        p.2.length = a.nrows + b.nrows := by
    intro ac
    induction ac with
    | nil => intro bc _ _ _ p hp; simp at hp
    | cons x t ih =>
        intro bc hl hwa hwb p hp
        cases bc with
        | nil => simp at hl
        | cons y tb =>
            rw [List.zipWith_cons_cons] at hp
            rcases List.mem_cons.mp hp with rfl | hp2
            · simp [hwa x (List.mem_cons_self _ _),
                hwb y (List.mem_cons_self _ _)]
            · exact ih tb (by simpa using hl)
                (fun z hz => hwa z (List.mem_cons_of_mem _ hz))
                (fun z hz => hwb z (List.mem_cons_of_mem _ hz)) p hp2
  exact aux a.cols b.cols hlen ha hb

theorem rowsOf_append2 (a b : DF) (hh : b.header = a.header)
    (ha : a.Wf) : rowsOf (a.append2 b) = rowsOf a ++ rowsOf b := by
  have hlen : a.cols.length = b.cols.length := by
    have h1 := congrArg List.length hh
    simpa [DF.header] using h1.symm
  unfold rowsOf DF.append2
  simp only
  rw [List.range_add, List.map_append, List.map_map]
  congr 1
  · exact List.map_congr_left fun i hi =>
      zipWith_combine_row_left a.cols b.cols a.nrows i hlen ha
        (List.mem_range.mp hi)
  · simp only [Function.comp_def]
    refine List.map_congr_left fun i hi => ?_
    rw [zipWith_combine_row_right a.cols b.cols a.nrows (a.nrows + i) hlen ha
      (Nat.le_add_right _ _)]
    simp [Nat.add_sub_cancel_left]

theorem concatFrames_header (l : List DF) (H : List String)
    (hh : ∀ d ∈ l, d.header = H) (hne : l ≠ []) :
    (concatFrames l).header = H := by
  induction l with
  | nil => exact absurd rfl hne
  | cons d t ih =>
      cases t with
      | nil => exact hh d (List.mem_cons_self _ _)
      | cons e r =>
          have hht : ∀ x ∈ e :: r, x.header = H := fun x hx =>
            hh x (List.mem_cons_of_mem _ hx)
          have hct : (concatFrames (e :: r)).header = H := ih hht (by simp)
          have hlen : d.cols.length = (concatFrames (e :: r)).cols.length := by
            have h1 : d.header.length = H.length := by
              rw [hh d (List.mem_cons_self _ _)]
            have h2 : (concatFrames (e :: r)).header.length = H.length := by
              rw [hct]
            simpa [DF.header] using h1.trans h2.symm
          calc (concatFrames (d :: e :: r)).header
              = (d.append2 (concatFrames (e :: r))).header := rfl
            _ = d.header := append2_header _ _ hlen
            _ = H := hh d (List.mem_cons_self _ _)

theorem concatFrames_wf (l : List DF) (H : List String)
    (hh : ∀ d ∈ l, d.header = H) (hw : ∀ d ∈ l, d.Wf) :
    (concatFrames l).Wf := by
  induction l with
  | nil =>
      intro p hp
      obtain ⟨c, hc, hceq⟩ := List.mem_map.mp hp
      rw [← hceq]
      rfl
  | cons d t ih =>
      cases t with
      | nil => exact hw d (List.mem_cons_self _ _)
      | cons e r =>
          have hht : ∀ x ∈ e :: r, x.header = H := fun x hx =>
            hh x (List.mem_cons_of_mem _ hx)
          have hwt : ∀ x ∈ e :: r, x.Wf := fun x hx =>
            hw x (List.mem_cons_of_mem _ hx)
          have hct : (concatFrames (e :: r)).header = H :=
            concatFrames_header (e :: r) H hht (by simp)
          have hlen : d.cols.length = (concatFrames (e :: r)).cols.length := by
            have h1 : d.header.length = H.length := by
              rw [hh d (List.mem_cons_self _ _)]
            have h2 : (concatFrames (e :: r)).header.length = H.length := by
              rw [hct]
            simpa [DF.header] using h1.trans h2.symm
          exact append2_wf d (concatFrames (e :: r)) hlen
            (hw d (List.mem_cons_self _ _)) (ih hht hwt)

theorem rowsOf_concatFrames (l : List DF) (H : List String)
    (hh : ∀ d ∈ l, d.header = H) (hw : ∀ d ∈ l, d.Wf) :
    rowsOf (concatFrames l) = (l.map rowsOf).flatten := by
  induction l with
  | nil => rfl
  | cons d t ih =>
      cases t with
      | nil => simp [concatFrames]
      | cons e r =>
          have hht : ∀ x ∈ e :: r, x.header = H := fun x hx =>
            hh x (List.mem_cons_of_mem _ hx)
          have hwt : ∀ x ∈ e :: r, x.Wf := fun x hx =>
            hw x (List.mem_cons_of_mem _ hx)
          have hbh : (concatFrames (e :: r)).header = d.header := by
            rw [concatFrames_header (e :: r) H hht (by simp),
              hh d (List.mem_cons_self _ _)]
          calc rowsOf (concatFrames (d :: e :: r))
              = rowsOf (d.append2 (concatFrames (e :: r))) := rfl
            _ = rowsOf d ++ rowsOf (concatFrames (e :: r)) :=
                rowsOf_append2 _ _ hbh (hw d (List.mem_cons_self _ _))
            _ = rowsOf d ++ ((e :: r).map rowsOf).flatten := by
                rw [ih hht hwt]
            _ = ((d :: e :: r).map rowsOf).flatten := by simp

/- Characterizations of the combiner. -/

theorem combineAndClean_isSome_iff (sources : List SourceFile) :
    (combineAndClean sources).isSome = true ↔
      sources ≠ [] ∧ normalizedFrames sources ≠ [] ∧
        headersAligned (normalizedFrames sources) = true := by
  unfold combineAndClean
  by_cases h1 : sources.isEmpty
  · simp [h1, List.isEmpty_iff.mp h1]
  · by_cases h2 : (normalizedFrames sources).isEmpty
    · simp [h1, h2, List.isEmpty_iff.mp h2]
    · by_cases h3 : headersAligned (normalizedFrames sources)
      · have hs : sources ≠ [] := fun he => h1 (by simp [he])
        have hf : normalizedFrames sources ≠ [] := fun he => h2 (by simp [he])
        simp [h1, h2, h3, hs, hf]
      · simp [h1, h2, h3]

theorem combineAndClean_eq_some (sources : List SourceFile) (out : DF)
    (h : combineAndClean sources = some out) :
    out = concatFrames (normalizedFrames sources) := by
  unfold combineAndClean at h
  split at h
  · cases h
  · split at h
    · cases h
    · split at h
      · exact (Option.some.inj h).symm
      · cases h

theorem normalizedFrames_ne_nil_iff (sources : List SourceFile) :
    normalizedFrames sources ≠ [] ↔ ∃ s ∈ sources, s.parsed.isSome := by
  unfold normalizedFrames
  rw [Ne, List.filterMap_eq_nil_iff]
  constructor
  · intro h
    by_contra hn
    push_neg at hn
    refine h fun s hs => ?_
    cases hp : s.parsed with
    | none => rfl
    | some d => exact absurd (by simp [hp]) (hn s hs)
  · rintro ⟨s, hs, hps⟩ hall
    obtain ⟨d, hd⟩ := Option.isSome_iff_exists.mp hps
    have := hall s hs
    rw [hd] at this
    simp at this

theorem frames_mem (sources : List SourceFile) (f : DF)
    (hf : f ∈ normalizedFrames sources) :
    ∃ s ∈ sources, ∃ d, s.parsed = some d ∧
      f = normalizeTable d (cityOfFileName s.name) := by
  unfold normalizedFrames at hf
  obtain ⟨s, hs, hmap⟩ := List.mem_filterMap.mp hf
  obtain ⟨d, hd, hdf⟩ := Option.map_eq_some'.mp hmap
  exact ⟨s, hs, d, hd, hdf.symm⟩

theorem headersAligned_iff (l : List DF) :
    headersAligned l = true ↔ ∀ f ∈ l, ∀ g ∈ l, f.header = g.header := by
  unfold headersAligned
  rw [List.all_eq_true]
  cases l with
  | nil => simp
  | cons d t =>
      constructor
      · intro h f hf g hg
        have hf2 := h f hf
        have hg2 := h g hg
        rw [List.headD_cons] at hf2 hg2
        rw [eq_of_beq hf2, eq_of_beq hg2]
      · intro h f hf
        rw [List.headD_cons]
        exact beq_iff_eq.mpr (h f hf d (List.mem_cons_self _ _))

/-- A discovered source that parses (the two-row table `dfEx`). -/
def srcGood : SourceFile :=
  { name := "Pune_detailed_groundwater_data.csv", parsed := some dfEx }

/-- A discovered source whose parse raised (it is skipped). -/
def srcBad : SourceFile :=
  { name := "Delhi_detailed_groundwater_data.csv", parsed := none }

/-- A discovered source that parses into the duplicate-water-level table
`dfDup`. -/
def srcDup : SourceFile :=
  { name := "Goa_detailed_groundwater_data.csv", parsed := some dfDup }

/-- C6 counterexample: both discovered sources parse, but the
duplicate-water-level source normalizes to a ten-column frame whose
header differs from the other frame's canonical header, so the uncaught
`pd.concat` raise aborts the run and no output file is produced —
refuting "a persisted output file iff at least one discovered source
parses". -/
theorem combiner_counterexample :
    combineAndClean [srcDup, srcGood] = none
    ∧ srcDup.parsed.isSome = true ∧ srcGood.parsed.isSome = true := by
  refine ⟨?_, rfl, rfl⟩
  have halign : headersAligned (normalizedFrames [srcDup, srcGood]) = false := by
    decide
  unfold combineAndClean
  rw [halign]
  rfl

theorem sources_ex_wf : ∀ s ∈ [srcGood, srcBad], ∀ d, s.parsed = some d →
    d.Wf ∧ d.header.Nodup ∧ singleWaterName d := by
  intro s hs d hd
  rcases List.mem_cons.mp hs with rfl | hs2
  · have hde : dfEx = d := Option.some.inj hd
    rw [← hde]
    have hconc : ∀ p ∈ dfEx.cols, p.2.length = dfEx.nrows := by decide
    exact ⟨hconc, by decide, by decide, by decide, by decide⟩
  · rcases List.mem_cons.mp hs2 with rfl | h
    · simp [srcBad] at hd
    · cases h

/-- C6 (amended): provided every parsed source has unique column labels
(as `read_csv` guarantees) and carries at most one of the three
water-level names, the combiner produces a persisted output iff at least
one discovered source parses — with zero sources discovered, or every
source failing to parse, it reports failure and writes no output — and a
parse failure of any single source is skipped without aborting, so the
output contains exactly the normalized rows of the sources that did
parse, in order. -/
theorem combiner_partial_success (sources : List SourceFile)
    (hwf : ∀ s ∈ sources, ∀ d, s.parsed = some d →
      d.Wf ∧ d.header.Nodup ∧ singleWaterName d) :
    ((combineAndClean sources).isSome ↔ ∃ s ∈ sources, s.parsed.isSome)
    ∧ (∀ out, combineAndClean sources = some out →
        rowsOf out = ((normalizedFrames sources).map rowsOf).flatten) := by
  have hcanon : ∀ f ∈ normalizedFrames sources, f.header = canonicalCols := by
    intro f hf
    obtain ⟨s, hs, d, hd, rfl⟩ := frames_mem sources f hf
    obtain ⟨-, hn, hsw⟩ := hwf s hs d hd
    exact normalizeTable_header d _ hn hsw
  have hwfr : ∀ f ∈ normalizedFrames sources, f.Wf := by
    intro f hf
    obtain ⟨s, hs, d, hd, rfl⟩ := frames_mem sources f hf
    exact normalizeTable_wf d _ (hwf s hs d hd).1
  have haligned : headersAligned (normalizedFrames sources) = true :=
    (headersAligned_iff _).mpr fun f hf g hg => by
      rw [hcanon f hf, hcanon g hg]
  constructor
  · rw [show ((combineAndClean sources).isSome ↔
        (combineAndClean sources).isSome = true) from Iff.rfl,
      combineAndClean_isSome_iff]
    constructor
    · rintro ⟨-, hne, -⟩
      exact (normalizedFrames_ne_nil_iff sources).mp hne
    · intro hex
      refine ⟨?_, (normalizedFrames_ne_nil_iff sources).mpr hex, haligned⟩
      obtain ⟨s, hs, -⟩ := hex
      exact List.ne_nil_of_mem hs
  · intro out hout
    rw [combineAndClean_eq_some sources out hout]
    exact rowsOf_concatFrames _ canonicalCols hcanon hwfr

/-- Witness for `combiner_partial_success`: one source of two parses, so
an output is produced. -/
theorem combiner_partial_success_witness :
    (combineAndClean [srcGood, srcBad]).isSome := by
  exact ((combiner_partial_success [srcGood, srcBad] sources_ex_wf).1).mpr
    ⟨srcGood, List.mem_cons_self srcGood [srcBad], by simp [srcGood]⟩

/-- C7: combining the same set of source files twice yields identical
combined content modulo row order (discovery order is directory-listing
order, hence may be permuted between runs), and the combiner's output
file `combined_city_data.csv` does not match the discovery glob, so it is
never itself ingested as a source by the second run; the output path is
the same fixed name on every run, so the second run overwrites the
first. -/
theorem combiner_idempotent_mod_order (s1 s2 : List SourceFile)
    (hperm : s1.Perm s2)
    (hwf : ∀ s ∈ s1, ∀ d, s.parsed = some d → d.Wf) :
    matchesSourceGlob combinedOutputName = false
    ∧ ((combineAndClean s1).isSome ↔ (combineAndClean s2).isSome)
    ∧ (∀ o1 o2, combineAndClean s1 = some o1 → combineAndClean s2 = some o2 →
        (rowsOf o1).Perm (rowsOf o2)) := by
  have hfperm : (normalizedFrames s1).Perm (normalizedFrames s2) :=
    hperm.filterMap _
  refine ⟨by decide, ?_, ?_⟩
  · rw [show ((combineAndClean s1).isSome ↔
        (combineAndClean s1).isSome = true) from Iff.rfl,
      show ((combineAndClean s2).isSome ↔
        (combineAndClean s2).isSome = true) from Iff.rfl,
      combineAndClean_isSome_iff, combineAndClean_isSome_iff]
    constructor
    · rintro ⟨h1, h2, h3⟩
      refine ⟨fun he => h1 (List.Perm.eq_nil (he ▸ hperm)),
        fun he => h2 (List.Perm.eq_nil (he ▸ hfperm)), ?_⟩
      rw [headersAligned_iff] at h3 ⊢
      intro f hf g hg
      exact h3 f (hfperm.mem_iff.mpr hf) g (hfperm.mem_iff.mpr hg)
    · rintro ⟨h1, h2, h3⟩
      refine ⟨fun he => h1 (List.Perm.eq_nil (he ▸ hperm.symm)),
        fun he => h2 (List.Perm.eq_nil (he ▸ hfperm.symm)), ?_⟩
      rw [headersAligned_iff] at h3 ⊢
      intro f hf g hg
      exact h3 f (hfperm.mem_iff.mp hf) g (hfperm.mem_iff.mp hg)
  · intro o1 o2 h1 h2
    have hw1 : ∀ f ∈ normalizedFrames s1, f.Wf := by
      intro f hf
      obtain ⟨s, hs, d, hd, rfl⟩ := frames_mem s1 f hf
      exact normalizeTable_wf d _ (hwf s hs d hd)
    have hw2 : ∀ f ∈ normalizedFrames s2, f.Wf := fun f hf =>
      hw1 f (hfperm.mem_iff.mpr hf)
    have hal1 : headersAligned (normalizedFrames s1) = true :=
      ((combineAndClean_isSome_iff s1).mp (by rw [h1]; rfl)).2.2
    have hal2 : headersAligned (normalizedFrames s2) = true :=
      ((combineAndClean_isSome_iff s2).mp (by rw [h2]; rfl)).2.2
    have hh1 : ∀ f ∈ normalizedFrames s1,
        f.header = ((normalizedFrames s1).headD emptyCanonical).header := by
      intro f hf
      have := List.all_eq_true.mp hal1 f hf
      exact eq_of_beq this
    have hh2 : ∀ f ∈ normalizedFrames s2,
        f.header = ((normalizedFrames s2).headD emptyCanonical).header := by
      intro f hf
      have := List.all_eq_true.mp hal2 f hf
      exact eq_of_beq this
    rw [combineAndClean_eq_some s1 o1 h1, combineAndClean_eq_some s2 o2 h2,
      rowsOf_concatFrames _ _ hh1 hw1, rowsOf_concatFrames _ _ hh2 hw2]
    exact (hfperm.map rowsOf).flatten

/-- Witness for `combiner_idempotent_mod_order` on the two example
sources listed in either order. -/
theorem combiner_idempotent_mod_order_witness :
    matchesSourceGlob combinedOutputName = false
    ∧ ((combineAndClean [srcGood, srcBad]).isSome ↔
        (combineAndClean [srcBad, srcGood]).isSome) := by
  have T := combiner_idempotent_mod_order [srcGood, srcBad]
    [srcBad, srcGood] (List.Perm.swap srcBad srcGood [])
    (fun s hs d hd => (sources_ex_wf s hs d hd).1)
  exact ⟨T.1, T.2.1⟩
